import Mathlib

/-!
Shallow embedding of the PlanVault server core (src/server/storage.ts,
src/server/routes.ts, src/shared/schema.ts).

Timestamps (JS `Date`) are modelled as `Int` (milliseconds since epoch);
comparison of `Date` objects in the source compares these values. Nullable
columns are `Option`-valued. JS `Map<string, V>` is modelled as an
association list `List (String × V)` with first-match lookup, in-place
replacement on `set`, and removal on `delete`; states built through the
storage API always have distinct keys, on which these operations agree with
`Map` exactly. `undefined` and `null` inputs both map to `none` where the
source treats them identically (via `||` or optional-parameter checks).
-/

/-- A row of the `events` table (schema.ts `events`): nullable columns are
`Option`. `isRecurring` is a nullable boolean column (no `.notNull()`), so it
is `Option Bool`. -/
structure Event where
  id : String
  userId : String
  title : String
  description : Option String
  startDate : Int
  endDate : Option Int
  category : String
  isRecurring : Option Bool
  recurringPattern : Option String
  recurringEndDate : Option Int
  encryptedData : Option String
  createdAt : Int
  updatedAt : Int
deriving Repr, DecidableEq

/-- A row of the `user_sessions` table (schema.ts `userSessions`). -/
structure UserSession where
  id : String
  userId : String
  sessionToken : String
  expiresAt : Int
  createdAt : Int
deriving Repr, DecidableEq

/-- A row of the `reminders` table (schema.ts `reminders`). -/
structure Reminder where
  id : String
  eventId : String
  minutesBefore : Int
  isTriggered : Option Bool
  createdAt : Int
deriving Repr, DecidableEq

/-- Input to `createEvent` (`InsertEvent` = z.infer of `insertEventSchema`):
`title` and `startDate` required, everything else absent/null collapses to
`none` because `MemStorage.createEvent` reads each such field through `||`. -/
structure InsertEvent where
  title : String
  startDate : Int
  description : Option String := none
  endDate : Option Int := none
  category : Option String := none
  isRecurring : Option Bool := none
  recurringPattern : Option String := none
  recurringEndDate : Option Int := none
  encryptedData : Option String := none
deriving Repr, DecidableEq

/-- A `Partial<InsertEvent>` as produced by `insertEventSchema.partial()`:
the outer `Option` is presence of the key in the update object, the inner
`Option` (for nullable columns) is null vs a value. -/
structure UpdateEvent where
  title : Option String := none
  startDate : Option Int := none
  description : Option (Option String) := none
  endDate : Option (Option Int) := none
  category : Option String := none
  isRecurring : Option (Option Bool) := none
  recurringPattern : Option (Option String) := none
  recurringEndDate : Option (Option Int) := none
  encryptedData : Option (Option String) := none
deriving Repr, DecidableEq

/-- `Map.get`: first entry with the given key. -/
def mapGet {α : Type} : List (String × α) → String → Option α
  | [], _ => none
  | p :: rest, k => if p.1 = k then some p.2 else mapGet rest k

/-- `Map.set`: replace the entry with the given key in place, else append. -/
def mapSet {α : Type} : List (String × α) → String → α → List (String × α)
  | [], k, v => [(k, v)]
  | p :: rest, k, v => if p.1 = k then (k, v) :: rest else p :: mapSet rest k v

/-- `Map.delete`: remove the entry (entries) with the given key. -/
def mapDelete {α : Type} : List (String × α) → String → List (String × α)
  | [], _ => []
  | p :: rest, k => if p.1 = k then mapDelete rest k else p :: mapDelete rest k

/-- `Array.from(map.values())`. -/
def mapValues {α : Type} (m : List (String × α)) : List α := m.map Prod.snd

/-- JS `x || null` for an optional string: `null`/`undefined` and the empty
string (falsy) become null. -/
def strOrNull (o : Option String) : Option String :=
  match o with
  | some s => if s = "" then none else some s
  | none => none

/-- JS `x || d` for an optional string with a (truthy) default. -/
def strOrDefault (o : Option String) (d : String) : String :=
  match o with
  | some s => if s = "" then d else s
  | none => d

/-- JS `x || false` for an optional boolean. -/
def boolOrFalse (o : Option Bool) : Bool :=
  match o with
  | some b => b
  | none => false

/-- The in-memory fallback backend `MemStorage` (storage.ts): three of its
four private maps (the `users` map plays no part in the claims considered
here). `events` and `reminders` are keyed by generated row id, `sessions` by
session token. -/
structure MemStorage where
  events : List (String × Event)
  reminders : List (String × Reminder)
  sessions : List (String × UserSession)
deriving Repr, DecidableEq

/-- `MemStorage.getSession`: the stored session is returned only when
`session.expiresAt > new Date()` (strict). `now` is the clock reading. -/
def MemStorage.getSession (s : MemStorage) (sessionToken : String) (now : Int) :
    Option UserSession :=
  match mapGet s.sessions sessionToken with
  | some session => if session.expiresAt > now then some session else none
  | none => none

/-- `MemStorage.deleteSession`: `this.sessions.delete(sessionToken)`. -/
def MemStorage.deleteSession (s : MemStorage) (sessionToken : String) : MemStorage :=
  { s with sessions := mapDelete s.sessions sessionToken }

/-- Insert an event into a list sorted ascending by `startDate`. -/
def insertByStart (e : Event) : List Event → List Event
  | [] => [e]
  | x :: xs => if x.startDate ≤ e.startDate then x :: insertByStart e xs else e :: x :: xs

/-- `userEvents.sort((a, b) => a.startDate.getTime() - b.startDate.getTime())`:
sort ascending by `startDate`. -/
def sortByStart : List Event → List Event
  | [] => []
  | x :: xs => insertByStart x (sortByStart xs)

/-- `MemStorage.getEvents`: filter to the owner's events; only when BOTH
bounds are present (`if (startDate && endDate)`; `Date` objects are truthy)
additionally keep `startDate <= e.startDate <= endDate`; sort ascending by
`startDate`. -/
def MemStorage.getEvents (s : MemStorage) (userId : String)
    (startDate endDate : Option Int) : List Event :=
  let userEvents := (mapValues s.events).filter (fun e => decide (e.userId = userId))
  let userEvents :=
    match startDate, endDate with
    | some sd, some ed =>
        userEvents.filter (fun e => decide (e.startDate ≥ sd) && decide (e.startDate ≤ ed))
    | _, _ => userEvents
  sortByStart userEvents

/-- `MemStorage.getEvent`: `event && event.userId === userId ? event : undefined`. -/
def MemStorage.getEvent (s : MemStorage) (id userId : String) : Option Event :=
  match mapGet s.events id with
  | some event => if event.userId = userId then some event else none
  | none => none

/-- `MemStorage.createEvent`: builds the row field by field; `randomUUID()`
and `new Date()` are passed in as `newId` and `now`. -/
def MemStorage.createEvent (s : MemStorage) (insertEvent : InsertEvent)
    (userId newId : String) (now : Int) : Event × MemStorage :=
  let event : Event :=
    { id := newId
      userId := userId
      title := insertEvent.title
      description := strOrNull insertEvent.description
      startDate := insertEvent.startDate
      endDate := insertEvent.endDate
      category := strOrDefault insertEvent.category "personal"
      isRecurring := some (boolOrFalse insertEvent.isRecurring)
      recurringPattern := strOrNull insertEvent.recurringPattern
      recurringEndDate := insertEvent.recurringEndDate
      encryptedData := strOrNull insertEvent.encryptedData
      createdAt := now
      updatedAt := now }
  (event, { s with events := mapSet s.events newId event })

/-- `{ ...event, ...updates, updatedAt: new Date() }`: keys present in
`updates` override, `updatedAt` is always refreshed, `id`/`userId`/`createdAt`
are not in `Partial<InsertEvent>` and are kept. -/
def Event.applyUpdates (e : Event) (u : UpdateEvent) (now : Int) : Event :=
  { id := e.id
    userId := e.userId
    title := u.title.getD e.title
    description := u.description.getD e.description
    startDate := u.startDate.getD e.startDate
    endDate := u.endDate.getD e.endDate
    category := u.category.getD e.category
    isRecurring := u.isRecurring.getD e.isRecurring
    recurringPattern := u.recurringPattern.getD e.recurringPattern
    recurringEndDate := u.recurringEndDate.getD e.recurringEndDate
    encryptedData := u.encryptedData.getD e.encryptedData
    createdAt := e.createdAt
    updatedAt := now }

/-- `MemStorage.updateEvent`: absent or not owned returns `undefined` and
leaves the store unchanged; otherwise stores and returns the merged row. -/
def MemStorage.updateEvent (s : MemStorage) (id userId : String)
    (updates : UpdateEvent) (now : Int) : Option Event × MemStorage :=
  match mapGet s.events id with
  | none => (none, s)
  | some event =>
    if event.userId = userId then
      let updatedEvent := event.applyUpdates updates now
      (some updatedEvent, { s with events := mapSet s.events id updatedEvent })
    else (none, s)

/-- `MemStorage.deleteEvent`: absent or not owned returns false; otherwise
`this.events.delete(id)` (true, since the key is present). Reminders are NOT
touched. -/
def MemStorage.deleteEvent (s : MemStorage) (id userId : String) : Bool × MemStorage :=
  match mapGet s.events id with
  | none => (false, s)
  | some event =>
    if event.userId = userId then (true, { s with events := mapDelete s.events id })
    else (false, s)

/-- `MemStorage.getEventReminders`: all reminders with the given event id,
unscoped by user. -/
def MemStorage.getEventReminders (s : MemStorage) (eventId : String) : List Reminder :=
  (mapValues s.reminders).filter (fun r => decide (r.eventId = eventId))

/-- `MemStorage.createReminder`: `isTriggered` initialised to false. -/
def MemStorage.createReminder (s : MemStorage) (eventId : String)
    (minutesBefore : Int) (newId : String) (now : Int) : Reminder × MemStorage :=
  let reminder : Reminder :=
    { id := newId, eventId := eventId, minutesBefore := minutesBefore
      isTriggered := some false, createdAt := now }
  (reminder, { s with reminders := mapSet s.reminders newId reminder })

/-- `MemStorage.getEventCountsByCategory`: count the caller's events per
category with `counts.set(c, (counts.get(c) || 0) + 1)` over a `Map`. -/
def MemStorage.getEventCountsByCategory (s : MemStorage) (userId : String) :
    List (String × Nat) :=
  let userEvents := (mapValues s.events).filter (fun e => decide (e.userId = userId))
  userEvents.foldl
    (fun counts e => mapSet counts e.category ((mapGet counts e.category).getD 0 + 1)) []

/-- The database backend's tables, as plain row lists (row order = the order
the database returns rows absent an ORDER BY; `sessionToken` carries a UNIQUE
constraint in schema.ts). -/
structure DbState where
  events : List Event
  reminders : List Reminder
  sessions : List UserSession
deriving Repr, DecidableEq

namespace DatabaseStorage

/-- `DatabaseStorage.getSession`: `SELECT ... WHERE sessionToken = token AND
expiresAt >= now` (drizzle `gte`), destructured to the first returned row. -/
def getSession (sessions : List UserSession) (sessionToken : String) (now : Int) :
    Option UserSession :=
  (sessions.filter
    (fun s => decide (s.sessionToken = sessionToken) && decide (s.expiresAt ≥ now))).head?

/-- `DatabaseStorage.deleteEvent`: `DELETE FROM events WHERE id = id AND
userId = userId`, reporting `rowCount > 0`; the `reminders.eventId` foreign
key is declared `onDelete: "cascade"` (schema.ts line 34), so the database
also removes every reminder referencing a deleted event row. -/
def deleteEvent (s : DbState) (id userId : String) : Bool × DbState :=
  let removed := s.events.filter (fun e => decide (e.id = id) && decide (e.userId = userId))
  let remaining :=
    s.events.filter (fun e => !(decide (e.id = id) && decide (e.userId = userId)))
  let reminders' :=
    s.reminders.filter (fun r => !(removed.any (fun e => decide (e.id = r.eventId))))
  (!removed.isEmpty, { s with events := remaining, reminders := reminders' })

/-- `DatabaseStorage.getEventReminders`: `SELECT * FROM reminders WHERE
eventId = eventId`. -/
def getEventReminders (s : DbState) (eventId : String) : List Reminder :=
  s.reminders.filter (fun r => decide (r.eventId = eventId))

end DatabaseStorage

/-- `String.prototype.replace` with a string pattern replaces only the FIRST
occurrence; with replacement `''` it deletes it. Character-list version. -/
def isPrefixList : List Char → List Char → Bool
  | [], _ => true
  | _ :: _, [] => false
  | p :: ps, c :: cs => p = c && isPrefixList ps cs

/-- Delete the first occurrence of `pat` from `s` (JS `s.replace(pat, '')`). -/
def replaceFirstList (pat : List Char) (s : List Char) : List Char :=
  match s with
  | [] => []
  | c :: cs => if isPrefixList pat s then s.drop pat.length else c :: replaceFirstList pat cs

/-- JS `s.replace(pat, '')` on strings. -/
def replaceFirst (s pat : String) : String := ⟨replaceFirstList pat.data s.data⟩

/-- The `authenticateUser` middleware (routes.ts): derive the token with
`req.headers.authorization?.replace('Bearer ', '')`; 401 when the header is
absent or the derived token is empty (`if (!sessionToken)`); 401 when
`getSession` resolves nothing; otherwise attach the session's user id. -/
def authenticateUser (authorization : Option String) (s : MemStorage) (now : Int) :
    Except Nat String :=
  match authorization.map (fun h => replaceFirst h "Bearer ") with
  | none => Except.error 401
  | some sessionToken =>
    if sessionToken = "" then Except.error 401
    else
      match s.getSession sessionToken now with
      | none => Except.error 401
      | some session => Except.ok session.userId

/-- The four category labels documented in schema.ts (`// work, personal,
health, finance`). -/
def categoryEnum : List String := ["work", "personal", "health", "finance"]

/-- `DatabaseStorage.getEvents`: `WHERE userId = userId` plus, only when both
bounds are given, `startDate >= start AND startDate <= end`, all ANDed in one
condition list; `ORDER BY startDate` ascending. -/
def DatabaseStorage.getEvents (events : List Event) (userId : String)
    (startDate endDate : Option Int) : List Event :=
  match startDate, endDate with
  | some sd, some ed =>
      sortByStart (events.filter (fun e => decide (e.userId = userId) &&
        (decide (e.startDate ≥ sd) && decide (e.startDate ≤ ed))))
  | _, _ => sortByStart (events.filter (fun e => decide (e.userId = userId)))

/-! ### Association-list lemmas -/

theorem mapGet_mapSet_self {α : Type} (m : List (String × α)) (k : String) (v : α) :
    mapGet (mapSet m k v) k = some v := by
  induction m with
  | nil => simp [mapSet, mapGet]
  | cons p rest ih =>
    by_cases h : p.1 = k
    · simp [mapSet, mapGet, h]
    · simp [mapSet, mapGet, h, ih]

theorem mapGet_mapDelete_self {α : Type} (m : List (String × α)) (k : String) :
    mapGet (mapDelete m k) k = none := by
  induction m with
  | nil => simp [mapDelete, mapGet]
  | cons p rest ih =>
    by_cases h : p.1 = k
    · simp [mapDelete, h, ih]
    · simp [mapDelete, mapGet, h, ih]

theorem mapDelete_of_get_none {α : Type} (m : List (String × α)) (k : String)
    (h : mapGet m k = none) : mapDelete m k = m := by
  induction m with
  | nil => rfl
  | cons p rest ih =>
    by_cases hp : p.1 = k
    · simp [mapGet, hp] at h
    · simp [mapGet, hp] at h
      simp [mapDelete, hp, ih h]

theorem mapSet_keys_sub {α : Type} (m : List (String × α)) (k : String) (v : α) :
    ∀ x ∈ (mapSet m k v).map Prod.fst, x ∈ m.map Prod.fst ∨ x = k := by
  induction m with
  | nil => simp [mapSet]
  | cons p rest ih =>
    by_cases h : p.1 = k
    · intro x hx
      simp [mapSet, h] at hx ⊢
      rcases hx with hx | hx
      · exact Or.inr hx
      · exact Or.inl (Or.inr hx)
    · intro x hx
      simp [mapSet, h] at hx ⊢
      rcases hx with hx | hx
      · exact Or.inl (Or.inl hx)
      · rcases ih x (by simpa using hx) with h2 | h2
        · exact Or.inl (Or.inr (by simpa using h2))
        · exact Or.inr h2

/-! ### Sorting lemmas -/

theorem mem_insertByStart (e x : Event) (l : List Event) :
    x ∈ insertByStart e l ↔ x = e ∨ x ∈ l := by
  induction l with
  | nil => simp [insertByStart]
  | cons y ys ih =>
    by_cases h : y.startDate ≤ e.startDate
    · simp [insertByStart, h, ih]
      tauto
    · simp [insertByStart, h]

theorem insertByStart_perm (e : Event) (l : List Event) :
    (insertByStart e l).Perm (e :: l) := by
  induction l with
  | nil => simp [insertByStart]
  | cons y ys ih =>
    by_cases h : y.startDate ≤ e.startDate
    · simp only [insertByStart, h, if_true]
      exact (ih.cons y).trans (List.Perm.swap e y ys)
    · simp [insertByStart, h]

theorem sortByStart_perm (l : List Event) : (sortByStart l).Perm l := by
  induction l with
  | nil => simp [sortByStart]
  | cons x xs ih =>
    exact (insertByStart_perm x (sortByStart xs)).trans (ih.cons x)

theorem mem_sortByStart (x : Event) (l : List Event) :
    x ∈ sortByStart l ↔ x ∈ l := (sortByStart_perm l).mem_iff

theorem insertByStart_sorted (e : Event) (l : List Event)
    (h : l.Pairwise (fun a b => a.startDate ≤ b.startDate)) :
    (insertByStart e l).Pairwise (fun a b => a.startDate ≤ b.startDate) := by
  induction l with
  | nil => simp [insertByStart]
  | cons y ys ih =>
    rcases List.pairwise_cons.mp h with ⟨hy, hys⟩
    by_cases hle : y.startDate ≤ e.startDate
    · simp only [insertByStart, hle, if_true]
      refine List.pairwise_cons.mpr ⟨?_, ih hys⟩
      intro z hz
      rcases (mem_insertByStart e z ys).mp hz with rfl | hz
      · exact hle
      · exact hy z hz
    · simp only [insertByStart, hle, if_false]
      refine List.pairwise_cons.mpr ⟨?_, h⟩
      intro z hz
      have hey : e.startDate ≤ y.startDate := le_of_lt (lt_of_not_le hle)
      rcases List.mem_cons.mp hz with rfl | hz
      · exact hey
      · exact le_trans hey (hy z hz)

theorem sortByStart_sorted (l : List Event) :
    (sortByStart l).Pairwise (fun a b => a.startDate ≤ b.startDate) := by
  induction l with
  | nil => simp [sortByStart]
  | cons x xs ih => exact insertByStart_sorted x (sortByStart xs) ih

/-! ### Ownership helper -/

theorem getEvents_userId (s : MemStorage) (u : String) (sb eb : Option Int) (x : Event)
    (hx : x ∈ s.getEvents u sb eb) : x.userId = u := by
  rcases sb with _ | sd <;> rcases eb with _ | ed <;>
    simp only [MemStorage.getEvents] at hx
  · have hx' := (mem_sortByStart _ _).mp hx
    simpa using (List.mem_filter.mp hx').2
  · have hx' := (mem_sortByStart _ _).mp hx
    simpa using (List.mem_filter.mp hx').2
  · have hx' := (mem_sortByStart _ _).mp hx
    simpa using (List.mem_filter.mp hx').2
  · have hx' := (mem_sortByStart _ _).mp hx
    have hx'' := (List.mem_filter.mp hx').1
    simpa using (List.mem_filter.mp hx'').2

/-- C1. Ownership scoping: an event created with owner `u1` is stored with
`userId = u1`; and for any state holding an event owned by `u1` under key
`id`, a caller `u2 ≠ u1` gets nothing from `getEvents`/`getEvent`/
`updateEvent`, and `deleteEvent` returns false leaving the store unchanged
(so the event stays in place). -/
theorem ownership_scoping (s s0 : MemStorage) (id u1 u2 : String) (e : Event)
    (sb eb : Option Int) (upd : UpdateEvent) (t : Int)
    (ins : InsertEvent) (nid : String) (now : Int)
    (hne : u1 ≠ u2) (hget : mapGet s.events id = some e) (howner : e.userId = u1) :
    ((s0.createEvent ins u1 nid now).1.userId = u1 ∧
      mapGet (s0.createEvent ins u1 nid now).2.events nid =
        some (s0.createEvent ins u1 nid now).1) ∧
    e ∉ s.getEvents u2 sb eb ∧
    s.getEvent id u2 = none ∧
    s.updateEvent id u2 upd t = (none, s) ∧
    (s.deleteEvent id u2 = (false, s) ∧ mapGet s.events id = some e) := by
  have hnot : ¬ e.userId = u2 := by rw [howner]; exact hne
  refine ⟨⟨rfl, ?_⟩, ?_, ?_, ?_, ?_, hget⟩
  · simp [MemStorage.createEvent, mapGet_mapSet_self]
  · intro hmem
    exact hnot (getEvents_userId s u2 sb eb e hmem)
  · simp [MemStorage.getEvent, hget, hnot]
  · simp [MemStorage.updateEvent, hget, hnot]
  · simp [MemStorage.deleteEvent, hget, hnot]

theorem ownership_scoping_witness :
    ((MemStorage.createEvent ⟨[], [], []⟩ { title := "T", startDate := 3 } "u1" "e1" 0).1.userId
        = "u1" ∧
      mapGet (MemStorage.createEvent ⟨[], [], []⟩
          { title := "T", startDate := 3 } "u1" "e1" 0).2.events "e1" =
        some (MemStorage.createEvent ⟨[], [], []⟩
          { title := "T", startDate := 3 } "u1" "e1" 0).1) ∧
    ⟨"e1", "u1", "T", none, 3, none, "personal", some false, none, none, none, 0, 0⟩ ∉
      MemStorage.getEvents
        ⟨[("e1", ⟨"e1", "u1", "T", none, 3, none, "personal", some false, none, none, none, 0, 0⟩)],
          [], []⟩ "u2" none none ∧
    MemStorage.getEvent
        ⟨[("e1", ⟨"e1", "u1", "T", none, 3, none, "personal", some false, none, none, none, 0, 0⟩)],
          [], []⟩ "e1" "u2" = none ∧
    MemStorage.updateEvent
        ⟨[("e1", ⟨"e1", "u1", "T", none, 3, none, "personal", some false, none, none, none, 0, 0⟩)],
          [], []⟩ "e1" "u2" {} 9 =
      (none,
        ⟨[("e1", ⟨"e1", "u1", "T", none, 3, none, "personal", some false, none, none, none, 0, 0⟩)],
          [], []⟩) ∧
    (MemStorage.deleteEvent
        ⟨[("e1", ⟨"e1", "u1", "T", none, 3, none, "personal", some false, none, none, none, 0, 0⟩)],
          [], []⟩ "e1" "u2" =
      (false,
        ⟨[("e1", ⟨"e1", "u1", "T", none, 3, none, "personal", some false, none, none, none, 0, 0⟩)],
          [], []⟩) ∧
      mapGet
        (MemStorage.mk
          [("e1", ⟨"e1", "u1", "T", none, 3, none, "personal", some false, none, none, none, 0, 0⟩)]
          [] []).events "e1" =
        some ⟨"e1", "u1", "T", none, 3, none, "personal", some false, none, none, none, 0, 0⟩) :=
  ownership_scoping
    ⟨[("e1", ⟨"e1", "u1", "T", none, 3, none, "personal", some false, none, none, none, 0, 0⟩)],
      [], []⟩
    ⟨[], [], []⟩ "e1" "u1" "u2"
    ⟨"e1", "u1", "T", none, 3, none, "personal", some false, none, none, none, 0, 0⟩
    none none {} 9 { title := "T", startDate := 3 } "e1" 0
    (by decide) (by decide) (by decide)

/-- C2. Session lifecycle: a stored session strictly expired at check time is
not returned by `getSession`; after `deleteSession` the token no longer
resolves; and `deleteSession` of an absent token leaves the store unchanged. -/
theorem session_lifecycle (s : MemStorage) (t : String) (now : Int) :
    (∀ sess, mapGet s.sessions t = some sess → sess.expiresAt < now →
      s.getSession t now = none) ∧
    (s.deleteSession t).getSession t now = none ∧
    (mapGet s.sessions t = none → s.deleteSession t = s) := by
  refine ⟨?_, ?_, ?_⟩
  · intro sess hget hlt
    have : ¬ sess.expiresAt > now := by omega
    simp [MemStorage.getSession, hget, this]
  · simp [MemStorage.getSession, MemStorage.deleteSession, mapGet_mapDelete_self]
  · intro h
    simp [MemStorage.deleteSession, mapDelete_of_get_none _ _ h]

theorem session_lifecycle_witness :
    MemStorage.getSession ⟨[], [], [("tok", ⟨"s1", "u1", "tok", 5, 0⟩)]⟩ "tok" 10 = none ∧
    (MemStorage.deleteSession ⟨[], [], [("tok", ⟨"s1", "u1", "tok", 99, 0⟩)]⟩ "tok").getSession
        "tok" 10 = none ∧
    MemStorage.deleteSession ⟨[], [], [("tok", ⟨"s1", "u1", "tok", 5, 0⟩)]⟩ "other" =
      ⟨[], [], [("tok", ⟨"s1", "u1", "tok", 5, 0⟩)]⟩ :=
  ⟨(session_lifecycle ⟨[], [], [("tok", ⟨"s1", "u1", "tok", 5, 0⟩)]⟩ "tok" 10).1
      ⟨"s1", "u1", "tok", 5, 0⟩ (by decide) (by decide),
    (session_lifecycle ⟨[], [], [("tok", ⟨"s1", "u1", "tok", 99, 0⟩)]⟩ "tok" 10).2.1,
    (session_lifecycle ⟨[], [], [("tok", ⟨"s1", "u1", "tok", 5, 0⟩)]⟩ "other" 10).2.2
      (by decide)⟩

/-- C3. `getEvents` filter contract: with both bounds present the result is
exactly the owned events whose `startDate` lies in `[startDate, endDate]`
(inclusive both ends), ascending by `startDate`; with either bound omitted it
is all owned events, likewise ascending. -/
theorem getEvents_filter_contract (s : MemStorage) (uid : String) (sd ed : Int)
    (b : Option Int) :
    (s.getEvents uid (some sd) (some ed)).Perm
      ((mapValues s.events).filter
        (fun e => decide (e.userId = uid) &&
          (decide (e.startDate ≥ sd) && decide (e.startDate ≤ ed)))) ∧
    (s.getEvents uid (some sd) (some ed)).Pairwise
      (fun a b => a.startDate ≤ b.startDate) ∧
    (s.getEvents uid none b).Perm
      ((mapValues s.events).filter (fun e => decide (e.userId = uid))) ∧
    (s.getEvents uid b none).Perm
      ((mapValues s.events).filter (fun e => decide (e.userId = uid))) ∧
    (s.getEvents uid none b).Pairwise (fun a b => a.startDate ≤ b.startDate) ∧
    (s.getEvents uid b none).Pairwise (fun a b => a.startDate ≤ b.startDate) ∧
    (DatabaseStorage.getEvents (mapValues s.events) uid (some sd) (some ed)).Perm
      ((mapValues s.events).filter
        (fun e => decide (e.userId = uid) &&
          (decide (e.startDate ≥ sd) && decide (e.startDate ≤ ed)))) ∧
    (DatabaseStorage.getEvents (mapValues s.events) uid none b).Perm
      ((mapValues s.events).filter (fun e => decide (e.userId = uid))) ∧
    (DatabaseStorage.getEvents (mapValues s.events) uid b none).Perm
      ((mapValues s.events).filter (fun e => decide (e.userId = uid))) := by
  refine ⟨?_, ?_, ?_, ?_, ?_, ?_, ?_, ?_, ?_⟩
  · simp only [MemStorage.getEvents]
    refine (sortByStart_perm _).trans ?_
    rw [List.filter_filter]
    have heq :
        ((mapValues s.events).filter
          (fun e => (decide (e.startDate ≥ sd) && decide (e.startDate ≤ ed)) &&
            decide (e.userId = uid))) =
        ((mapValues s.events).filter
          (fun e => decide (e.userId = uid) &&
            (decide (e.startDate ≥ sd) && decide (e.startDate ≤ ed)))) :=
      List.filter_congr (fun e _ => Bool.and_comm _ _)
    rw [heq]
  · simp only [MemStorage.getEvents]
    exact sortByStart_sorted _
  · rcases b with _ | x <;>
      · simp only [MemStorage.getEvents]
        exact sortByStart_perm _
  · rcases b with _ | x <;>
      · simp only [MemStorage.getEvents]
        exact sortByStart_perm _
  · rcases b with _ | x <;>
      · simp only [MemStorage.getEvents]
        exact sortByStart_sorted _
  · rcases b with _ | x <;>
      · simp only [MemStorage.getEvents]
        exact sortByStart_sorted _
  · simp only [DatabaseStorage.getEvents]
    exact sortByStart_perm _
  · rcases b with _ | x <;>
      · simp only [DatabaseStorage.getEvents]
        exact sortByStart_perm _
  · rcases b with _ | x <;>
      · simp only [DatabaseStorage.getEvents]
        exact sortByStart_perm _

/-! ### Category-count fold invariant -/

theorem bump_step (m : List (String × Nat)) (c : String)
    (hnd : (m.map Prod.fst).Nodup) (hpos : ∀ p ∈ m, 0 < p.2) :
    ((mapSet m c ((mapGet m c).getD 0 + 1)).map Prod.snd).sum
        = (m.map Prod.snd).sum + 1 ∧
    ((mapSet m c ((mapGet m c).getD 0 + 1)).map Prod.fst).Nodup ∧
    (∀ p ∈ mapSet m c ((mapGet m c).getD 0 + 1), 0 < p.2) := by
  induction m with
  | nil =>
    refine ⟨by simp [mapSet, mapGet], by simp [mapSet, mapGet], ?_⟩
    intro p hp
    simp [mapSet, mapGet] at hp
    simp [hp]
  | cons p rest ih =>
    by_cases h : p.1 = c
    · refine ⟨?_, ?_, ?_⟩
      · simp [mapSet, mapGet, h]
        omega
      · simp only [mapSet, mapGet, h, if_true, List.map_cons] at hnd ⊢
        simpa [h] using hnd
      · intro q hq
        simp [mapSet, mapGet, h] at hq
        rcases hq with rfl | hq
        · simp
        · exact hpos q (List.mem_cons_of_mem p hq)
    · have hnd' : (rest.map Prod.fst).Nodup := (List.nodup_cons.mp (by simpa using hnd)).2
      have hhead : p.1 ∉ rest.map Prod.fst := (List.nodup_cons.mp (by simpa using hnd)).1
      have hpos' : ∀ q ∈ rest, 0 < q.2 := fun q hq => hpos q (List.mem_cons_of_mem p hq)
      obtain ⟨ih1, ih2, ih3⟩ := ih hnd' hpos'
      refine ⟨?_, ?_, ?_⟩
      · simp only [mapSet, mapGet, h, if_false, List.map_cons, List.sum_cons]
        rw [ih1]
        omega
      · simp only [mapSet, mapGet, h, if_false, List.map_cons]
        refine List.nodup_cons.mpr ⟨?_, ih2⟩
        intro hmem
        rcases mapSet_keys_sub rest c _ p.1 hmem with h2 | h2
        · exact hhead h2
        · exact h h2
      · intro q hq
        simp only [mapSet, mapGet, h, if_false] at hq
        rcases List.mem_cons.mp hq with rfl | hq
        · exact hpos q (List.mem_cons_self q rest)
        · exact ih3 q hq

theorem countsFold (cs : List String) (m : List (String × Nat))
    (hnd : (m.map Prod.fst).Nodup) (hpos : ∀ p ∈ m, 0 < p.2) :
    (((cs.foldl (fun acc c => mapSet acc c ((mapGet acc c).getD 0 + 1)) m).map
        Prod.snd).sum = (m.map Prod.snd).sum + cs.length) ∧
    ((cs.foldl (fun acc c => mapSet acc c ((mapGet acc c).getD 0 + 1)) m).map
      Prod.fst).Nodup ∧
    (∀ p ∈ cs.foldl (fun acc c => mapSet acc c ((mapGet acc c).getD 0 + 1)) m,
      0 < p.2) := by
  induction cs generalizing m with
  | nil => exact ⟨by simp, hnd, hpos⟩
  | cons c cs ih =>
    obtain ⟨h1, h2, h3⟩ := bump_step m c hnd hpos
    obtain ⟨g1, g2, g3⟩ := ih (mapSet m c ((mapGet m c).getD 0 + 1)) h2 h3
    refine ⟨?_, by simpa using g2, by simpa using g3⟩
    simp only [List.foldl_cons]
    rw [g1, h1, List.length_cons]
    omega

/-- C5. `getEventCountsByCategory` aggregation: the counts sum to the number
of the user's events, no category key repeats, and every listed count is
positive (zero-count categories are absent). -/
theorem countsByCategory_partition (s : MemStorage) (u : String) :
    ((s.getEventCountsByCategory u).map Prod.snd).sum =
      ((mapValues s.events).filter (fun e => decide (e.userId = u))).length ∧
    ((s.getEventCountsByCategory u).map Prod.fst).Nodup ∧
    ∀ p ∈ s.getEventCountsByCategory u, 0 < p.2 := by
  have key := countsFold
    ((((mapValues s.events).filter (fun e => decide (e.userId = u))).map
      (fun e => e.category))) [] (by simp) (by simp)
  rw [List.foldl_map] at key
  obtain ⟨k1, k2, k3⟩ := key
  refine ⟨?_, ?_, ?_⟩
  · simp only [MemStorage.getEventCountsByCategory]
    rw [k1]
    simp
  · simpa only [MemStorage.getEventCountsByCategory] using k2
  · simpa only [MemStorage.getEventCountsByCategory] using k3

/-! ### Session expiry boundary (C4) -/

theorem mapGet_none_iff {α : Type} (m : List (String × α)) (k : String) :
    mapGet m k = none ↔ ∀ p ∈ m, ¬(p.1 = k) := by
  induction m with
  | nil => simp [mapGet]
  | cons p rest ih =>
    by_cases h : p.1 = k
    · simp [mapGet, h]
    · simp [mapGet, h, ih]

theorem dbGetSession_none_of_absent (l : List (String × UserSession)) (token : String)
    (now : Int) (hcoh : ∀ p ∈ l, p.1 = p.2.sessionToken)
    (habs : mapGet l token = none) :
    DatabaseStorage.getSession (mapValues l) token now = none := by
  unfold DatabaseStorage.getSession
  have hnil : (mapValues l).filter
      (fun s => decide (s.sessionToken = token) && decide (s.expiresAt ≥ now)) = [] := by
    refine List.filter_eq_nil_iff.mpr ?_
    intro a ha
    rcases List.mem_map.mp ha with ⟨p, hp, rfl⟩
    have h1 := (mapGet_none_iff l token).mp habs p hp
    have h2 := hcoh p hp
    simp only [Bool.and_eq_true, decide_eq_true_eq, not_and]
    intro hc
    exact absurd (h2.trans hc) h1
  rw [hnil]
  rfl

/-- Induction core for C4: both backends read the same session table. -/
theorem getSession_boundary_list (l : List (String × UserSession)) (token : String)
    (now : Int) (hcoh : ∀ p ∈ l, p.1 = p.2.sessionToken)
    (hnd : (l.map Prod.fst).Nodup) :
    (∀ sess, mapGet l token = some sess →
      (sess.expiresAt = now →
        DatabaseStorage.getSession (mapValues l) token now = some sess ∧
        MemStorage.getSession ⟨[], [], l⟩ token now = none) ∧
      (sess.expiresAt ≠ now →
        DatabaseStorage.getSession (mapValues l) token now =
          MemStorage.getSession ⟨[], [], l⟩ token now)) ∧
    (mapGet l token = none →
      DatabaseStorage.getSession (mapValues l) token now = none ∧
      MemStorage.getSession ⟨[], [], l⟩ token now = none) := by
  induction l with
  | nil =>
    constructor
    · intro sess hsess
      simp [mapGet] at hsess
    · intro _
      exact ⟨rfl, rfl⟩
  | cons p rest ih =>
    have hcoh' : ∀ q ∈ rest, q.1 = q.2.sessionToken :=
      fun q hq => hcoh q (List.mem_cons_of_mem p hq)
    have hnd' : (rest.map Prod.fst).Nodup := (List.nodup_cons.mp (by simpa using hnd)).2
    have hhead : p.1 ∉ rest.map Prod.fst := (List.nodup_cons.mp (by simpa using hnd)).1
    by_cases hk : p.1 = token
    · -- head entry carries the token; no other entry can
      have htokp : p.2.sessionToken = token := (hcoh p (List.mem_cons_self p rest)).symm.trans hk
      have hrestnil : List.filter
          (fun s => decide (s.sessionToken = token) && decide (s.expiresAt ≥ now))
          (List.map Prod.snd rest) = [] := by
        refine List.filter_eq_nil_iff.mpr ?_
        intro a ha
        rcases List.mem_map.mp ha with ⟨q, hq, rfl⟩
        have hq1 : q.1 ≠ token := by
          intro hq1
          have hmem : q.1 ∈ rest.map Prod.fst := List.mem_map.mpr ⟨q, hq, rfl⟩
          rw [hq1, ← hk] at hmem
          exact hhead hmem
        have hq2 := hcoh' q hq
        simp only [Bool.and_eq_true, decide_eq_true_eq, not_and]
        intro hc
        exact absurd (hq2.trans hc) hq1
      constructor
      · intro sess hsess
        have hsesseq : sess = p.2 := by
          simp [mapGet, hk] at hsess
          exact hsess.symm
        subst hsesseq
        constructor
        · intro hnow
          constructor
          · unfold DatabaseStorage.getSession
            simp only [mapValues, List.map_cons, List.filter_cons]
            rw [if_pos (by simp [htokp, hnow])]
            rfl
          · simp [MemStorage.getSession, mapGet, hk, hnow]
        · intro hnow
          by_cases hgt : p.2.expiresAt > now
          · unfold DatabaseStorage.getSession
            simp only [mapValues, List.map_cons, List.filter_cons]
            rw [if_pos (by simp [htokp]; omega)]
            simp [MemStorage.getSession, mapGet, hk, hgt]
          · unfold DatabaseStorage.getSession
            simp only [mapValues, List.map_cons, List.filter_cons]
            rw [if_neg (by simp [htokp]; omega)]
            rw [hrestnil]
            simp [MemStorage.getSession, mapGet, hk, hgt]
      · intro habs
        exfalso
        simp [mapGet, hk] at habs
    · -- head entry does not carry the token: both sides defer to the tail
      have htokp : p.2.sessionToken ≠ token := by
        intro hc
        exact hk ((hcoh p (List.mem_cons_self p rest)).trans hc)
      have hdb : DatabaseStorage.getSession (mapValues (p :: rest)) token now =
          DatabaseStorage.getSession (mapValues rest) token now := by
        unfold DatabaseStorage.getSession
        simp only [mapValues, List.map_cons, List.filter_cons]
        rw [if_neg (by simp [htokp])]
      have hmem : MemStorage.getSession ⟨[], [], p :: rest⟩ token now =
          MemStorage.getSession ⟨[], [], rest⟩ token now := by
        simp [MemStorage.getSession, mapGet, hk]
      have hget : mapGet (p :: rest) token = mapGet rest token := by
        simp [mapGet, hk]
      obtain ⟨ih1, ih2⟩ := ih hcoh' hnd'
      constructor
      · intro sess hsess
        rw [hget] at hsess
        obtain ⟨a1, a2⟩ := ih1 sess hsess
        constructor
        · intro hnow
          obtain ⟨b1, b2⟩ := a1 hnow
          exact ⟨hdb.trans b1, hmem.trans b2⟩
        · intro hnow
          rw [hdb, hmem]
          exact a2 hnow
      · intro habs
        rw [hget] at habs
        obtain ⟨b1, b2⟩ := ih2 habs
        exact ⟨hdb.trans b1, hmem.trans b2⟩

/-- C4. Expiry boundary: when the stored session's `expiresAt` equals the
clock reading exactly, `DatabaseStorage.getSession` (`expiresAt >= now`)
returns it while `MemStorage.getSession` (`expiresAt > now`) does not; on
every other input (a stored session off the boundary, or no stored session)
the two backends agree. -/
theorem getSession_expiry_boundary (s : MemStorage) (token : String) (now : Int)
    (hcoh : ∀ p ∈ s.sessions, p.1 = p.2.sessionToken)
    (hnd : (s.sessions.map Prod.fst).Nodup) :
    (∀ sess, mapGet s.sessions token = some sess →
      (sess.expiresAt = now →
        DatabaseStorage.getSession (mapValues s.sessions) token now = some sess ∧
        s.getSession token now = none) ∧
      (sess.expiresAt ≠ now →
        DatabaseStorage.getSession (mapValues s.sessions) token now =
          s.getSession token now)) ∧
    (mapGet s.sessions token = none →
      DatabaseStorage.getSession (mapValues s.sessions) token now = none ∧
      s.getSession token now = none) :=
  getSession_boundary_list s.sessions token now hcoh hnd

theorem getSession_expiry_boundary_witness :
    (DatabaseStorage.getSession
        (mapValues (MemStorage.mk [] [] [("tok", ⟨"s1", "u1", "tok", 10, 0⟩)]).sessions)
        "tok" 10 = some ⟨"s1", "u1", "tok", 10, 0⟩ ∧
      (MemStorage.mk [] [] [("tok", ⟨"s1", "u1", "tok", 10, 0⟩)]).getSession "tok" 10 =
        none) ∧
    DatabaseStorage.getSession
        (mapValues (MemStorage.mk [] [] [("tok", ⟨"s1", "u1", "tok", 10, 0⟩)]).sessions)
        "tok" 9 =
      (MemStorage.mk [] [] [("tok", ⟨"s1", "u1", "tok", 10, 0⟩)]).getSession "tok" 9 :=
  ⟨((getSession_expiry_boundary ⟨[], [], [("tok", ⟨"s1", "u1", "tok", 10, 0⟩)]⟩ "tok" 10
        (by decide) (by decide)).1 ⟨"s1", "u1", "tok", 10, 0⟩ (by decide)).1 rfl,
    ((getSession_expiry_boundary ⟨[], [], [("tok", ⟨"s1", "u1", "tok", 10, 0⟩)]⟩ "tok" 9
        (by decide) (by decide)).1 ⟨"s1", "u1", "tok", 10, 0⟩ (by decide)).2 (by decide)⟩

/-- C6 counterexample: the insert payload may carry `description: ""` (the
zod schema accepts any string), yet the row read back after `createEvent`
stores `null` (`insertEvent.description || null` is falsy on `""`), so the
returned row does NOT equal the input on a provided field. -/
theorem createEvent_roundtrip_cex :
    (MemStorage.createEvent ⟨[], [], []⟩
        { title := "t", startDate := 0, description := some "" } "u1" "e1" 0).2.getEvent
        "e1" "u1" =
      some (MemStorage.createEvent ⟨[], [], []⟩
        { title := "t", startDate := 0, description := some "" } "u1" "e1" 0).1 ∧
    (MemStorage.createEvent ⟨[], [], []⟩
        { title := "t", startDate := 0, description := some "" } "u1" "e1" 0).1.description ≠
      some "" := by decide

/-- C6 (amended). Create/get round-trip: `getEvent` with the returned id and
the same user returns exactly the created row; the row carries the
server-assigned id and timestamps and agrees with the input on every provided
field EXCEPT that a provided empty string in `description`,
`recurringPattern`, `encryptedData` is stored as null and an empty-string
`category` falls back to the default `personal` (JS `||` falsiness);
unprovided optional fields are null, `category` defaults to `personal`,
`isRecurring` defaults to false. -/
theorem createEvent_roundtrip (s : MemStorage) (ins : InsertEvent) (u nid : String)
    (now : Int) :
    ((s.createEvent ins u nid now).2.getEvent nid u = some (s.createEvent ins u nid now).1) ∧
    (s.createEvent ins u nid now).1.id = nid ∧
    (s.createEvent ins u nid now).1.userId = u ∧
    (s.createEvent ins u nid now).1.createdAt = now ∧
    (s.createEvent ins u nid now).1.updatedAt = now ∧
    (s.createEvent ins u nid now).1.title = ins.title ∧
    (s.createEvent ins u nid now).1.startDate = ins.startDate ∧
    (s.createEvent ins u nid now).1.endDate = ins.endDate ∧
    (s.createEvent ins u nid now).1.recurringEndDate = ins.recurringEndDate ∧
    (∀ d, ins.description = some d → d ≠ "" →
      (s.createEvent ins u nid now).1.description = some d) ∧
    (ins.description = none → (s.createEvent ins u nid now).1.description = none) ∧
    (∀ d, ins.recurringPattern = some d → d ≠ "" →
      (s.createEvent ins u nid now).1.recurringPattern = some d) ∧
    (ins.recurringPattern = none →
      (s.createEvent ins u nid now).1.recurringPattern = none) ∧
    (∀ d, ins.encryptedData = some d → d ≠ "" →
      (s.createEvent ins u nid now).1.encryptedData = some d) ∧
    (ins.encryptedData = none → (s.createEvent ins u nid now).1.encryptedData = none) ∧
    (∀ c, ins.category = some c → c ≠ "" →
      (s.createEvent ins u nid now).1.category = c) ∧
    (ins.category = none → (s.createEvent ins u nid now).1.category = "personal") ∧
    (∀ b, ins.isRecurring = some b →
      (s.createEvent ins u nid now).1.isRecurring = some b) ∧
    (ins.isRecurring = none → (s.createEvent ins u nid now).1.isRecurring = some false) := by
  refine ⟨?_, rfl, rfl, rfl, rfl, rfl, rfl, rfl, rfl, ?_, ?_, ?_, ?_, ?_, ?_, ?_, ?_, ?_, ?_⟩
  · simp [MemStorage.createEvent, MemStorage.getEvent, mapGet_mapSet_self]
  · intro d hd hne
    simp [MemStorage.createEvent, strOrNull, hd, hne]
  · intro h
    simp [MemStorage.createEvent, strOrNull, h]
  · intro d hd hne
    simp [MemStorage.createEvent, strOrNull, hd, hne]
  · intro h
    simp [MemStorage.createEvent, strOrNull, h]
  · intro d hd hne
    simp [MemStorage.createEvent, strOrNull, hd, hne]
  · intro h
    simp [MemStorage.createEvent, strOrNull, h]
  · intro c hc hne
    simp [MemStorage.createEvent, strOrDefault, hc, hne]
  · intro h
    simp [MemStorage.createEvent, strOrDefault, h]
  · intro b hb
    simp [MemStorage.createEvent, boolOrFalse, hb]
  · intro h
    simp [MemStorage.createEvent, boolOrFalse, h]

theorem createEvent_roundtrip_witness :
    ((MemStorage.createEvent ⟨[], [], []⟩
        { title := "Standup", startDate := 100, description := some "notes",
          category := some "work", isRecurring := some true } "u1" "e1" 7).2.getEvent
        "e1" "u1" =
      some (MemStorage.createEvent ⟨[], [], []⟩
        { title := "Standup", startDate := 100, description := some "notes",
          category := some "work", isRecurring := some true } "u1" "e1" 7).1) ∧
    (MemStorage.createEvent ⟨[], [], []⟩
        { title := "Standup", startDate := 100, description := some "notes",
          category := some "work", isRecurring := some true } "u1" "e1" 7).1.description =
      some "notes" ∧
    (MemStorage.createEvent ⟨[], [], []⟩
        { title := "Standup", startDate := 100, description := some "notes",
          category := some "work", isRecurring := some true } "u1" "e1" 7).1.category =
      "work" ∧
    (MemStorage.createEvent ⟨[], [], []⟩
        { title := "Standup", startDate := 100, description := some "notes",
          category := some "work", isRecurring := some true } "u1" "e1" 7).1.isRecurring =
      some true := by
  obtain ⟨h1, _, _, _, _, _, _, _, _, h10, _, _, _, _, _, h16, _, h18, _⟩ :=
    createEvent_roundtrip ⟨[], [], []⟩
      { title := "Standup", startDate := 100, description := some "notes",
        category := some "work", isRecurring := some true } "u1" "e1" 7
  exact ⟨h1, h10 "notes" rfl (by decide), h16 "work" rfl (by decide), h18 true rfl⟩

/-- `o.getD (o.getD d) = o.getD d`: one spread overriding the same key twice
is the same as once. -/
theorem getD_getD {α : Type} (o : Option α) (d : α) : o.getD (o.getD d) = o.getD d := by
  cases o <;> rfl

/-- C7. `updateEvent` contract: on an owned event, applying the same partial
update twice yields the same stored row as once except `updatedAt` (refreshed
each time, advancing with the clock); on a missing or non-owned event it
returns nothing and changes nothing. -/
theorem updateEvent_idempotent (s : MemStorage) (id u : String) (upd : UpdateEvent)
    (t1 t2 t : Int) :
    (∀ e, mapGet s.events id = some e → e.userId = u → t1 ≤ t2 →
      ∃ r1 r2 : Event,
        (s.updateEvent id u upd t1).1 = some r1 ∧
        ((s.updateEvent id u upd t1).2.updateEvent id u upd t2).1 = some r2 ∧
        r2 = { r1 with updatedAt := t2 } ∧
        r1.updatedAt = t1 ∧ r2.updatedAt = t2 ∧ r1.updatedAt ≤ r2.updatedAt ∧
        mapGet (((s.updateEvent id u upd t1).2.updateEvent id u upd t2).2).events id =
          some r2) ∧
    (mapGet s.events id = none → s.updateEvent id u upd t = (none, s)) ∧
    (∀ e, mapGet s.events id = some e → e.userId ≠ u →
      s.updateEvent id u upd t = (none, s)) := by
  refine ⟨?_, ?_, ?_⟩
  · intro e hget howner hmono
    have h1 : s.updateEvent id u upd t1 =
        (some (e.applyUpdates upd t1),
          { s with events := mapSet s.events id (e.applyUpdates upd t1) }) := by
      simp [MemStorage.updateEvent, hget, howner]
    have huser : (e.applyUpdates upd t1).userId = u := howner
    have hget1 : mapGet (mapSet s.events id (e.applyUpdates upd t1)) id =
        some (e.applyUpdates upd t1) := mapGet_mapSet_self _ _ _
    have h2 : (MemStorage.mk (mapSet s.events id (e.applyUpdates upd t1))
          s.reminders s.sessions).updateEvent id u upd t2 =
        (some ((e.applyUpdates upd t1).applyUpdates upd t2),
          MemStorage.mk
            (mapSet (mapSet s.events id (e.applyUpdates upd t1)) id
              ((e.applyUpdates upd t1).applyUpdates upd t2))
            s.reminders s.sessions) := by
      simp [MemStorage.updateEvent, hget1, huser]
    refine ⟨e.applyUpdates upd t1, (e.applyUpdates upd t1).applyUpdates upd t2,
      ?_, ?_, ?_, rfl, rfl, hmono, ?_⟩
    · rw [h1]
    · rw [h1, h2]
    · simp [Event.applyUpdates, getD_getD]
    · rw [h1, h2]
      exact mapGet_mapSet_self _ _ _
  · intro h
    simp [MemStorage.updateEvent, h]
  · intro e hget hne
    simp [MemStorage.updateEvent, hget, hne]

theorem updateEvent_idempotent_witness :
    ∃ r1 r2 : Event,
      (MemStorage.updateEvent
          ⟨[("e1", ⟨"e1", "u1", "T", none, 3, none, "personal", some false, none, none,
            none, 0, 0⟩)], [], []⟩ "e1" "u1" { title := some "New" } 1).1 = some r1 ∧
      ((MemStorage.updateEvent
          ⟨[("e1", ⟨"e1", "u1", "T", none, 3, none, "personal", some false, none, none,
            none, 0, 0⟩)], [], []⟩ "e1" "u1" { title := some "New" } 1).2.updateEvent
          "e1" "u1" { title := some "New" } 2).1 = some r2 ∧
      r2 = { r1 with updatedAt := 2 } ∧
      r1.updatedAt = 1 ∧ r2.updatedAt = 2 ∧ r1.updatedAt ≤ r2.updatedAt ∧
      mapGet (((MemStorage.updateEvent
          ⟨[("e1", ⟨"e1", "u1", "T", none, 3, none, "personal", some false, none, none,
            none, 0, 0⟩)], [], []⟩ "e1" "u1" { title := some "New" } 1).2.updateEvent
          "e1" "u1" { title := some "New" } 2).2).events "e1" = some r2 :=
  (updateEvent_idempotent
      ⟨[("e1", ⟨"e1", "u1", "T", none, 3, none, "personal", some false, none, none,
        none, 0, 0⟩)], [], []⟩ "e1" "u1" { title := some "New" } 1 2 1).1
    ⟨"e1", "u1", "T", none, 3, none, "personal", some false, none, none, none, 0, 0⟩
    (by decide) (by decide) (by decide)

/-- C8 counterexample: neither the zod insert schema (a bare `z.string()`)
nor `createEvent` checks the category against the enumeration, so an event
with category `"other"` is accepted and persisted. -/
theorem category_enum_cex :
    (MemStorage.createEvent ⟨[], [], []⟩
        { title := "t", startDate := 0, category := some "other" } "u1" "e1" 0).1.category =
      "other" ∧
    mapGet (MemStorage.createEvent ⟨[], [], []⟩
        { title := "t", startDate := 0, category := some "other" } "u1" "e1" 0).2.events
        "e1" =
      some (MemStorage.createEvent ⟨[], [], []⟩
        { title := "t", startDate := 0, category := some "other" } "u1" "e1" 0).1 ∧
    (MemStorage.createEvent ⟨[], [], []⟩
        { title := "t", startDate := 0, category := some "other" } "u1" "e1" 0).1.category ∉
      categoryEnum := by decide

/-- C8 (amended). The work/personal/health/finance enumeration is a
documented convention, not enforced: `createEvent` and `updateEvent` persist
any category string. What does hold: `createEvent` stays inside the
enumeration whenever the input's category is absent or one of the four
labels (absent/empty defaults to `personal`), and `updateEvent` keeps an
in-enumeration category in the enumeration whenever the update's category is
absent or one of the four labels. -/
theorem category_enum_preserved (s : MemStorage) (ins : InsertEvent) (u nid : String)
    (now : Int) (upd : UpdateEvent) (e : Event) (t : Int)
    (hins : ins.category = none ∨ ∃ c ∈ categoryEnum, ins.category = some c)
    (hupd : upd.category = none ∨ ∃ c ∈ categoryEnum, upd.category = some c)
    (he : e.category ∈ categoryEnum) :
    (s.createEvent ins u nid now).1.category ∈ categoryEnum ∧
    (e.applyUpdates upd t).category ∈ categoryEnum := by
  constructor
  · rcases hins with h | ⟨c, hc, h⟩
    · simp [MemStorage.createEvent, strOrDefault, h, categoryEnum]
    · have hcne : ¬ (c = "") := by
        simp only [categoryEnum, List.mem_cons, List.not_mem_nil, or_false] at hc
        rcases hc with rfl | rfl | rfl | rfl <;> decide
      simpa [MemStorage.createEvent, strOrDefault, h, hcne] using hc
  · rcases hupd with h | ⟨c, hc, h⟩
    · simpa [Event.applyUpdates, h] using he
    · simpa [Event.applyUpdates, h] using hc

theorem category_enum_preserved_witness :
    (MemStorage.createEvent ⟨[], [], []⟩
        { title := "t", startDate := 0 } "u1" "e1" 0).1.category ∈ categoryEnum ∧
    (Event.applyUpdates
        ⟨"e1", "u1", "t", none, 0, none, "health", some false, none, none, none, 0, 0⟩
        { category := some "finance" } 5).category ∈ categoryEnum :=
  category_enum_preserved ⟨[], [], []⟩ { title := "t", startDate := 0 } "u1" "e1" 0
    { category := some "finance" }
    ⟨"e1", "u1", "t", none, 0, none, "health", some false, none, none, none, 0, 0⟩ 5
    (Or.inl rfl) (Or.inr ⟨"finance", by decide, rfl⟩) (by decide)

/-- C9 counterexample: in the MemStorage fallback, `deleteEvent` removes only
the event; the attached reminder is still returned by `getEventReminders`
afterwards (no cascade is implemented there). -/
theorem reminder_cascade_cex :
    (MemStorage.deleteEvent
        ⟨[("e1", ⟨"e1", "u1", "T", none, 0, none, "personal", some false, none, none,
          none, 0, 0⟩)], [("r1", ⟨"r1", "e1", 15, some false, 0⟩)], []⟩ "e1" "u1").1 =
      true ∧
    (MemStorage.deleteEvent
        ⟨[("e1", ⟨"e1", "u1", "T", none, 0, none, "personal", some false, none, none,
          none, 0, 0⟩)], [("r1", ⟨"r1", "e1", 15, some false, 0⟩)], []⟩ "e1"
        "u1").2.getEventReminders "e1" =
      [⟨"r1", "e1", 15, some false, 0⟩] := by decide

/-- C9 (amended). In the database backend the declared `onDelete: "cascade"`
foreign key removes every reminder of a deleted event: whenever
`deleteEvent` reports a row removed, `getEventReminders` on that id is
empty. (The MemStorage fallback does not cascade; see the counterexample.) -/
theorem db_deleteEvent_cascade (s : DbState) (id userId : String)
    (h : (DatabaseStorage.deleteEvent s id userId).1 = true) :
    DatabaseStorage.getEventReminders (DatabaseStorage.deleteEvent s id userId).2 id =
      [] := by
  unfold DatabaseStorage.deleteEvent at h ⊢
  simp only [Bool.not_eq_true', List.isEmpty_eq_false] at h
  obtain ⟨e0, he0⟩ := List.exists_mem_of_ne_nil _ h
  have he0id : e0.id = id := by
    have h2 := (List.mem_filter.mp he0).2
    simp only [Bool.and_eq_true, decide_eq_true_eq] at h2
    exact h2.1
  unfold DatabaseStorage.getEventReminders
  refine List.filter_eq_nil_iff.mpr ?_
  intro r hr
  simp only [decide_eq_true_eq]
  intro hrid
  have hnotany := (List.mem_filter.mp hr).2
  simp only [Bool.not_eq_true', List.any_eq_false, decide_eq_true_eq] at hnotany
  exact hnotany e0 he0 (he0id.trans hrid.symm)

theorem db_deleteEvent_cascade_witness :
    DatabaseStorage.getEventReminders
      (DatabaseStorage.deleteEvent
        ⟨[⟨"e1", "u1", "T", none, 0, none, "personal", some false, none, none, none, 0, 0⟩],
          [⟨"r1", "e1", 15, some false, 0⟩], []⟩ "e1" "u1").2 "e1" = [] :=
  db_deleteEvent_cascade
    ⟨[⟨"e1", "u1", "T", none, 0, none, "personal", some false, none, none, none, 0, 0⟩],
      [⟨"r1", "e1", 15, some false, 0⟩], []⟩ "e1" "u1" (by decide)

/-! ### Bearer-token middleware (C10) -/

theorem isPrefixList_append (pat rest : List Char) :
    isPrefixList pat (pat ++ rest) = true := by
  induction pat with
  | nil => rfl
  | cons c cs ih => simp [isPrefixList, ih]

theorem replaceFirstList_append (pat rest : List Char) :
    replaceFirstList pat (pat ++ rest) = rest := by
  rcases pat with _ | ⟨c, cs⟩
  · cases rest <;> simp [replaceFirstList, isPrefixList]
  · rw [List.cons_append, replaceFirstList]
    rw [← List.cons_append, isPrefixList_append]
    simp only [if_true]
    exact List.drop_left _ _

/-- `'Bearer <t>'.replace('Bearer ', '')` strips exactly the leading prefix
and returns `t` unchanged — even when `t` itself contains `'Bearer '` (only
the FIRST occurrence is replaced). -/
theorem replaceFirst_prefix_append (t : String) :
    replaceFirst ("Bearer " ++ t) "Bearer " = t := by
  unfold replaceFirst
  rw [String.data_append, replaceFirstList_append]

/-- C10. Bearer prefix optional at the middleware: the header-absent request
is rejected 401; the derivation removes exactly the first `'Bearer '`
occurrence, so a raw token containing no `'Bearer '` authenticates exactly
as with the prefix; and (for any store holding no empty-token session, as
none can) 401 is returned iff the header is absent or the derived token
resolves to no live session. -/
theorem bearer_token_middleware (s : MemStorage) (t hdr : String) (now : Int)
    (hclean : replaceFirst t "Bearer " = t)
    (hempty : mapGet s.sessions "" = none) :
    authenticateUser none s now = Except.error 401 ∧
    replaceFirst ("Bearer " ++ t) "Bearer " = t ∧
    authenticateUser (some t) s now = authenticateUser (some ("Bearer " ++ t)) s now ∧
    (authenticateUser (some hdr) s now = Except.error 401 ↔
      s.getSession (replaceFirst hdr "Bearer ") now = none) := by
  refine ⟨rfl, replaceFirst_prefix_append t, ?_, ?_⟩
  · simp only [authenticateUser, Option.map_some', hclean, replaceFirst_prefix_append]
  · simp only [authenticateUser, Option.map_some']
    by_cases h0 : replaceFirst hdr "Bearer " = ""
    · rw [h0]
      simp [MemStorage.getSession, hempty]
    · rw [if_neg h0]
      cases hg : s.getSession (replaceFirst hdr "Bearer ") now with
      | none => simp [hg]
      | some sess => simp [hg]

theorem bearer_token_middleware_witness :
    authenticateUser none ⟨[], [], [("abc", ⟨"s1", "u1", "abc", 10, 0⟩)]⟩ 5 =
      Except.error 401 ∧
    replaceFirst ("Bearer " ++ "abc") "Bearer " = "abc" ∧
    authenticateUser (some "abc") ⟨[], [], [("abc", ⟨"s1", "u1", "abc", 10, 0⟩)]⟩ 5 =
      authenticateUser (some ("Bearer " ++ "abc"))
        ⟨[], [], [("abc", ⟨"s1", "u1", "abc", 10, 0⟩)]⟩ 5 ∧
    (authenticateUser (some "Bearer abc") ⟨[], [], [("abc", ⟨"s1", "u1", "abc", 10, 0⟩)]⟩
        5 = Except.error 401 ↔
      (MemStorage.mk [] [] [("abc", ⟨"s1", "u1", "abc", 10, 0⟩)]).getSession
        (replaceFirst "Bearer abc" "Bearer ") 5 = none) :=
  bearer_token_middleware ⟨[], [], [("abc", ⟨"s1", "u1", "abc", 10, 0⟩)]⟩ "abc"
    "Bearer abc" 5 (by decide) (by decide)
